import Mathlib

/-!
Verification of the vdifil VDIF filterbank pipeline (src/vdifil.cu).

The CUDA source is shallowly embedded: kernels become pure index/value
functions (machine floats are modelled by exact rationals, and by reals
where a square root is taken; division by zero, which produces IEEE
infinities and NaNs in the running code, is modelled by an explicit
extended-value type where that matters), and the host-side read loops
become step functions on an explicit stream state.  All sizes follow the
preprocessor constants of vdifil.cu.
-/

set_option maxRecDepth 4000

namespace Vdifil

/-- NACCUMULATE from vdifil.cu: frames per accumulation. -/
def NACCUMULATE : ℕ := 4000

/-- PERBLOCK from vdifil.cu: items per thread / output samples per block. -/
def PERBLOCK : ℕ := 625

/-- TIMEAVG from vdifil.cu: spectra averaged per output time step. -/
def TIMEAVG : ℕ := 16

/-- UNPACKFACTOR from vdifil.cu: samples per packed byte. -/
def UNPACKFACTOR : ℕ := 4

/-- VDIFSIZE from vdifil.cu: payload bytes per frame. -/
def VDIFSIZE : ℕ := 8000

/-- FFTOUT from vdifil.cu: complex bins per R2C transform output. -/
def FFTOUT : ℕ := 257

/-- FFTUSE from vdifil.cu: retained channels. -/
def FFTUSE : ℕ := 256

/-- TIMESCALE from vdifil.cu: the fixed power scale constant 0.125. -/
def TIMESCALE : ℚ := 0.125

theorem TIMESCALE_eq : TIMESCALE = 1 / 8 := by
  norm_num [TIMESCALE]

/-- The constant mask table kMask = {0x03, 0x0C, 0x30, 0xC0} (vdifil.cu line 61). -/
def kMask : ℕ → ℕ
  | 0 => 0x03
  | 1 => 0x0C
  | 2 => 0x30
  | 3 => 0xC0
  | _ => 0

/-- The per-code decode of UnpackKernel (vdifil.cu line 83):
`(inval & kMask[tmod]) >> (2 * tmod)`. -/
def decode (inval tmod : ℕ) : ℕ := (inval &&& kMask tmod) >>> (2 * tmod)

/-- The raw 2-bit code at code position `q` of byte `b`
(bit positions 0, 2, 4, 6). -/
def codeOf (b q : ℕ) : ℕ := (b >>> (2 * q)) &&& 3

/-- Re-encoding four decoded sample values back into one byte:
value `q` is placed back at bit position `2*q`. -/
def reencode (v0 v1 v2 v3 : ℕ) : ℕ :=
  (v0 <<< 0) ||| (v1 <<< 2) ||| (v2 <<< 4) ||| (v3 <<< 6)

/-- C6: for every byte value 0 through 255, decoding the byte's four 2-bit
codes via the constant 4-entry mask table (bit positions 0, 2, 4, 6) and
re-encoding the four decoded sample values exactly reconstructs the
original byte bit pattern: the decode is bijective per byte. -/
theorem c6_decode_bijective :
    ∀ b : Fin 256, reencode (decode b 0) (decode b 1) (decode b 2) (decode b 3) = b := by
  decide

/-- For bytes, the masked-shift decode equals extracting the 2-bit code. -/
theorem decode_eq_codeOf : ∀ b : Fin 256, ∀ q : Fin 4, decode b q = codeOf b q := by
  decide

/-- Decoded values are 2-bit codes: always below 4. -/
theorem decode_lt_four : ∀ b : Fin 256, ∀ q : Fin 4, decode b q < 4 := by
  decide

/-! ## UnpackKernel index model (vdifil.cu lines 63-91)

The kernel is launched as `UnpackKernel<<<50, 1024>>>` with
`samples = NACCUMULATE * 8000 = 32000000`.  Thread `tid` of block `blk`
runs `PERBLOCK = 625` iterations `isamp`; on each it stages the global
input byte `blk*1024*625 + isamp*1024 + tid` into shared memory, and then
for `ichunk in 0..3` reads staged byte `tid/4 + ichunk*256` and writes the
code at position `tid % 4` of that byte to output index
`outidx + tid + ichunk*1024`, with `outidx = blk*1024*625*4 + isamp*1024*4`. -/

/-- Global input byte index read by (block, thread, isamp, ichunk) in
UnpackKernel: staging base plus `threadIdx.x / 4 + ichunk * 256`. -/
def unpackInIdx (blk tid isamp ichunk : ℕ) : ℕ :=
  blk * 1024 * 625 + isamp * 1024 + (tid / 4 + ichunk * 256)

/-- Global output sample index written by (block, thread, isamp, ichunk) in
UnpackKernel: `outidx2 = outidx + threadIdx.x` plus `ichunk * 1024`, where
`outidx = blockIdx.x*blockDim.x*PERBLOCK*4 + isamp*blockDim.x*4`. -/
def unpackOutIdx (blk tid isamp ichunk : ℕ) : ℕ :=
  blk * 1024 * 625 * 4 + isamp * 1024 * 4 + tid + ichunk * 1024

/-- The value UnpackKernel writes at `unpackOutIdx blk tid isamp ichunk`,
given the packed input stream `in_` (one polarization):
`static_cast<float>(static_cast<short>((inval & kMask[tmod]) >> (2*tmod)))`,
modelled as the decoded natural number carried through ℤ (the `short` cast)
into ℚ (the `float` widening). -/
def unpackWriteVal (in_ : ℕ → ℕ) (blk tid isamp ichunk : ℕ) : ℚ :=
  ((decode (in_ (unpackInIdx blk tid isamp ichunk)) (tid % 4) : ℤ) : ℚ)

/-- Every write of UnpackKernel lands at output index
`4 * (input byte index) + (code position)`: the permutation implemented by
the shared-memory staging is exactly byte-then-bit-order expansion. -/
theorem unpackOutIdx_eq (blk tid isamp ichunk : ℕ) :
    unpackOutIdx blk tid isamp ichunk = 4 * unpackInIdx blk tid isamp ichunk + tid % 4 := by
  unfold unpackOutIdx unpackInIdx
  omega

/-- Block index of the unique UnpackKernel write covering byte `B`. -/
def writerBlk (B : ℕ) : ℕ := B / 640000

/-- Thread index of the unique UnpackKernel write covering byte `B`,
code position `q`. -/
def writerTid (B q : ℕ) : ℕ := 4 * (B % 256) + q

/-- Per-thread iteration of the unique UnpackKernel write covering byte `B`. -/
def writerIsamp (B : ℕ) : ℕ := B % 640000 / 1024

/-- Chunk index of the unique UnpackKernel write covering byte `B`. -/
def writerIchunk (B : ℕ) : ℕ := B % 1024 / 256

/-- Output position at which UnpackKernel places the sample decoded from
byte `B`, code position `q`. -/
def unpackPos (B q : ℕ) : ℕ :=
  unpackOutIdx (writerBlk B) (writerTid B q) (writerIsamp B) (writerIchunk B)

/-- The designated writer for (byte `B`, code `q`) is in range, reads
byte `B`, and decodes code position `q`. -/
theorem writer_reads (B q : ℕ) (hB : B < 32000000) (hq : q < 4) :
    writerBlk B < 50 ∧ writerTid B q < 1024 ∧ writerIsamp B < 625 ∧ writerIchunk B < 4 ∧
      unpackInIdx (writerBlk B) (writerTid B q) (writerIsamp B) (writerIchunk B) = B ∧
      writerTid B q % 4 = q := by
  unfold writerBlk writerTid writerIsamp writerIchunk unpackInIdx
  omega

/-- No other in-range (block, thread, isamp, ichunk) combination reads
byte `B` at code position `q`. -/
theorem writer_unique (B q blk tid isamp ichunk : ℕ)
    (hblk : blk < 50) (htid : tid < 1024) (hisamp : isamp < 625) (hichunk : ichunk < 4)
    (hread : unpackInIdx blk tid isamp ichunk = B) (hcode : tid % 4 = q) :
    blk = writerBlk B ∧ tid = writerTid B q ∧ isamp = writerIsamp B ∧
      ichunk = writerIchunk B := by
  unfold unpackInIdx at hread
  unfold writerBlk writerTid writerIsamp writerIchunk
  omega

/-- C2 (amended): for every input byte index `B` and code position `q`, the
unique UnpackKernel write that decodes code `q` of byte `B` places it at
output sample index `4*B + q`: the placement IS plain byte-then-bit-order
expansion, so the four samples decoded from one byte occupy consecutive
output positions.  The stride-1024 separation appears between the four
samples written by a single thread, which come from four different bytes
256 positions apart within one 1024-byte staging chunk. -/
theorem c2_unpack_layout (B q : ℕ) (hB : B < 32000000) (hq : q < 4) :
    unpackPos B q = 4 * B + q ∧
      (∀ blk tid isamp ichunk : ℕ, blk < 50 → tid < 1024 → isamp < 625 → ichunk < 4 →
        unpackInIdx blk tid isamp ichunk = B → tid % 4 = q →
        unpackOutIdx blk tid isamp ichunk = 4 * B + q) ∧
      (∀ tid ichunk : ℕ, ichunk < 4 →
        unpackOutIdx (writerBlk B) tid (writerIsamp B) (ichunk + 1) =
          unpackOutIdx (writerBlk B) tid (writerIsamp B) ichunk + 1024) := by
  refine ⟨?_, ?_, ?_⟩
  · unfold unpackPos unpackOutIdx writerBlk writerTid writerIsamp writerIchunk
    omega
  · intro blk tid isamp ichunk hblk htid hisamp hichunk hread hcode
    rw [unpackOutIdx_eq, hread, hcode]
  · intro tid ichunk _
    unfold unpackOutIdx
    omega

/-- C2 witness: the amended layout theorem applied at byte 0, code 1. -/
theorem c2_unpack_layout_witness :
    (0 : ℕ) < 32000000 ∧ (1 : ℕ) < 4 ∧
      (unpackPos 0 1 = 4 * 0 + 1 ∧
        (∀ blk tid isamp ichunk : ℕ, blk < 50 → tid < 1024 → isamp < 625 → ichunk < 4 →
          unpackInIdx blk tid isamp ichunk = 0 → tid % 4 = 1 →
          unpackOutIdx blk tid isamp ichunk = 4 * 0 + 1) ∧
        (∀ tid ichunk : ℕ, ichunk < 4 →
          unpackOutIdx (writerBlk 0) tid (writerIsamp 0) (ichunk + 1) =
            unpackOutIdx (writerBlk 0) tid (writerIsamp 0) ichunk + 1024)) :=
  ⟨by norm_num, by norm_num, c2_unpack_layout 0 1 (by norm_num) (by norm_num)⟩

/-- C2 counterexample: the four samples of input byte 0 land at output
positions 0, 1, 2, 3 - consecutive, separated by stride 1, not by one
quarter of the per-iteration output length (one accumulation unpacks to
128000000 samples, a quarter of which is 32000000; one thread-iteration
staging chunk unpacks to 4096 samples, a quarter of which is 1024). -/
theorem c2_counterexample :
    unpackPos 0 0 = 0 ∧ unpackPos 0 1 = 1 ∧ unpackPos 0 2 = 2 ∧ unpackPos 0 3 = 3 ∧
      unpackPos 0 1 ≠ unpackPos 0 0 + 128000000 / 4 ∧
      unpackPos 0 1 ≠ unpackPos 0 0 + 4096 / 4 := by
  refine ⟨by decide, by decide, by decide, by decide, by decide, by decide⟩

/-- C7: every unpacked sample produced by UnpackKernel is the decoded
value of its 2-bit code, carried through a signed integer (`short`) and
widened to floating point: the written sample equals the integer cast of
`(inval & kMask[tmod]) >> (2*tmod)`, that integer is determined by the
2-bit code alone (it equals the raw code, one of the four fixed values
0, 1, 2, 3), and is always below 4. -/
theorem c7_unpack_values (in_ : ℕ → ℕ) (blk tid isamp ichunk : ℕ)
    (hbyte : in_ (unpackInIdx blk tid isamp ichunk) < 256) :
    unpackWriteVal in_ blk tid isamp ichunk =
        ((codeOf (in_ (unpackInIdx blk tid isamp ichunk)) (tid % 4) : ℤ) : ℚ) ∧
      codeOf (in_ (unpackInIdx blk tid isamp ichunk)) (tid % 4) < 4 := by
  have hq : tid % 4 < 4 := Nat.mod_lt _ (by norm_num)
  have h1 := decode_eq_codeOf ⟨_, hbyte⟩ ⟨_, hq⟩
  have h2 := decode_lt_four ⟨_, hbyte⟩ ⟨_, hq⟩
  constructor
  · unfold unpackWriteVal
    rw [h1]
  · rw [← h1]
    exact h2

/-- C7 witness: the value theorem applied at a concrete all-0xFF input
stream and thread (0,0,0,0): the sample is the integer 3 widened. -/
theorem c7_unpack_values_witness :
    (fun _ : ℕ => 255) (unpackInIdx 0 0 0 0) < 256 ∧
      (unpackWriteVal (fun _ => 255) 0 0 0 0 =
          ((codeOf ((fun _ : ℕ => 255) (unpackInIdx 0 0 0 0)) (0 % 4) : ℤ) : ℚ) ∧
        codeOf ((fun _ : ℕ => 255) (unpackInIdx 0 0 0 0)) (0 % 4) < 4) :=
  ⟨by norm_num, c7_unpack_values (fun _ => 255) 0 0 0 0 (by norm_num)⟩

/-! ## DetectKernel (vdifil.cu lines 96-119) and DetectScaleKernel (lines 121-152)

Both are launched as `<<<25, FFTUSE>>>`.  Thread `tid` of block `blk`
starts at `outidx = blk*PERBLOCK*FFTUSE + FFTUSE - tid - 1` and
`inidx = blk*PERBLOCK*TIMEAVG*FFTOUT + tid + 1`, runs `PERBLOCK`
iterations, each summing `re^2 + im^2` over both polarizations and
`TIMEAVG` consecutive spectra, scaling by `TIMESCALE`, and advancing
`inidx` by `FFTOUT*TIMEAVG` and `outidx` by `FFTUSE`.  Complex floats are
modelled as pairs of rationals. -/

/-- Input complex index read by DetectKernel at (block, thread, isamp, iavg):
`blk*PERBLOCK*TIMEAVG*FFTOUT + tid + 1 + isamp*FFTOUT*TIMEAVG + iavg*FFTOUT`. -/
def detectInIdx (blk tid isamp iavg : ℕ) : ℕ :=
  blk * 625 * 16 * 257 + tid + 1 + isamp * 257 * 16 + iavg * 257

/-- Output index written by DetectKernel at (block, thread, isamp):
`blk*PERBLOCK*FFTUSE + FFTUSE - tid - 1 + isamp*FFTUSE`. -/
def detectOutIdx (blk tid isamp : ℕ) : ℕ :=
  blk * 625 * 256 + (256 - tid - 1) + isamp * 256

/-- The power value accumulated by one (block, thread, isamp) step of
DetectKernel: `TIMESCALE` times the sum over `ipol < 2` and `iavg < 16` of
`polval.x^2 + polval.y^2`. -/
def detectValue (in_ : ℕ → ℕ → ℚ × ℚ) (blk tid isamp : ℕ) : ℚ :=
  TIMESCALE * ∑ ipol ∈ Finset.range 2, ∑ iavg ∈ Finset.range 16,
    ((in_ ipol (detectInIdx blk tid isamp iavg)).1 ^ 2 +
      (in_ ipol (detectInIdx blk tid isamp iavg)).2 ^ 2)

/-- The raw (32-bit float mode) output array of DetectKernel, indexed by
global output sample index: position `o` belongs to block `o / 160000`,
step `o / 256 % 625` and thread `255 - o % 256` (the index map of
`detectOutIdx` inverted). -/
def detectOut (in_ : ℕ → ℕ → ℚ × ℚ) (o : ℕ) : ℚ :=
  detectValue in_ (o / 160000) (255 - o % 256) (o / 256 % 625)

/-- Evaluating `detectOut` at a write index gives that write's value: evaluating it at a write
index gives that write's value. -/
theorem detectOut_writes (in_ : ℕ → ℕ → ℚ × ℚ) (blk tid isamp : ℕ)
    (hblk : blk < 25) (htid : tid < 256) (hisamp : isamp < 625) :
    detectOut in_ (detectOutIdx blk tid isamp) = detectValue in_ blk tid isamp := by
  unfold detectOut
  have h1 : detectOutIdx blk tid isamp / 160000 = blk := by
    unfold detectOutIdx
    omega
  have h2 : 255 - detectOutIdx blk tid isamp % 256 = tid := by
    unfold detectOutIdx
    omega
  have h3 : detectOutIdx blk tid isamp / 256 % 625 = isamp := by
    unfold detectOutIdx
    omega
  rw [h1, h2, h3]

/-- C3: for every output time step and every transform bin `k` with
`1 ≤ k ≤ 256`, DetectKernel writes to retained output channel
`255 - (k - 1)` of that step the sum of `re^2 + im^2` of bin `k` over both
polarizations and 16 consecutive spectra, multiplied by the fixed scale
constant `TIMESCALE = 1/8`; and no read of the kernel ever touches
transform bin 0 (every input index is nonzero mod `FFTOUT = 257`). -/
theorem c3_detect_power (in_ : ℕ → ℕ → ℚ × ℚ) (step k : ℕ)
    (hstep : step < 15625) (hk1 : 1 ≤ k) (hk2 : k ≤ 256) :
    detectOut in_ (step * 256 + (255 - (k - 1))) =
        (1 / 8) * ∑ ipol ∈ Finset.range 2, ∑ iavg ∈ Finset.range 16,
          ((in_ ipol (step * 16 * 257 + iavg * 257 + k)).1 ^ 2 +
            (in_ ipol (step * 16 * 257 + iavg * 257 + k)).2 ^ 2) ∧
      (∀ blk tid isamp iavg : ℕ, blk < 25 → tid < 256 → isamp < 625 → iavg < 16 →
        detectInIdx blk tid isamp iavg % 257 ≠ 0) := by
  constructor
  · have hidx : step * 256 + (255 - (k - 1)) = detectOutIdx (step / 625) (k - 1) (step % 625) := by
      unfold detectOutIdx
      omega
    rw [hidx, detectOut_writes in_ _ _ _ (by omega) (by omega) (by omega)]
    unfold detectValue
    rw [TIMESCALE_eq]
    congr 1
    refine Finset.sum_congr rfl ?_
    intro ipol _
    refine Finset.sum_congr rfl ?_
    intro iavg hiavg
    rw [Finset.mem_range] at hiavg
    have : detectInIdx (step / 625) (k - 1) (step % 625) iavg =
        step * 16 * 257 + iavg * 257 + k := by
      unfold detectInIdx
      omega
    rw [this]
  · intro blk tid isamp iavg _ htid _ _
    unfold detectInIdx
    omega

/-- C3 witness: the detect theorem applied at step 0, bin 1, on the
constant input spectrum (1, 0) everywhere. -/
theorem c3_detect_power_witness :
    (0 : ℕ) < 15625 ∧ (1 : ℕ) ≤ 1 ∧ (1 : ℕ) ≤ 256 ∧
      (detectOut (fun _ _ => ((1 : ℚ), (0 : ℚ))) (0 * 256 + (255 - (1 - 1))) =
          (1 / 8) * ∑ ipol ∈ Finset.range 2, ∑ iavg ∈ Finset.range 16,
            (((fun _ _ => ((1 : ℚ), (0 : ℚ))) ipol (0 * 16 * 257 + iavg * 257 + 1)).1 ^ 2 +
              ((fun _ _ => ((1 : ℚ), (0 : ℚ))) ipol (0 * 16 * 257 + iavg * 257 + 1)).2 ^ 2) ∧
        (∀ blk tid isamp iavg : ℕ, blk < 25 → tid < 256 → isamp < 625 → iavg < 16 →
          detectInIdx blk tid isamp iavg % 257 ≠ 0)) :=
  ⟨by norm_num, by norm_num, by norm_num,
    c3_detect_power (fun _ _ => ((1 : ℚ), (0 : ℚ))) 0 1 (by norm_num) (by norm_num) (by norm_num)⟩

/-! ## DetectScaleKernel quantizer (vdifil.cu lines 141-147) -/

/-- The clamp of DetectScaleKernel (lines 142-146): `scaled` above 255 is
pinned to 255, below 0 to 0. -/
def clampByte (scaled : ℤ) : ℤ :=
  if scaled > 255 then 255 else if scaled < 0 then 0 else scaled

/-- The quantizer of DetectScaleKernel line 141 under exact (real-closed)
arithmetic with a nonzero divisor:
`__float2int_ru((outvalue - means[ch]) / stdevs[ch] * 32.0f + 128.0f)`
(round toward positive infinity, i.e. ceiling), then clamped. -/
def quantize (p mean stdev : ℚ) : ℤ :=
  clampByte ⌈(p - mean) / stdev * 32 + 128⌉

/-- The quantized output array of DetectScaleKernel, indexed by global
output sample index; the per-channel statistics are read at index
`FFTUSE - threadIdx.x - 1`, which equals the output channel `o % 256`. -/
def detectScaleOut (in_ : ℕ → ℕ → ℚ × ℚ) (means stdevs : ℕ → ℚ) (o : ℕ) : ℤ :=
  quantize (detectValue in_ (o / 160000) (255 - o % 256) (o / 256 % 625))
    (means (o % 256)) (stdevs (o % 256))

/-- C4: in quantized mode the stored byte is
`ceil((p - mean[ch]) / stdev[ch] * 32 + 128)` clamped to [0, 255] (the
kernel quantizes exactly the raw power `detectOut` computes, with the
statistics of the output channel), the rounding is ceiling, and whenever
`stdev > 0`: the mean quantizes to the midpoint 128, and
`mean + 4*stdev` / `mean - 4*stdev` saturate to 255 / 0. -/
theorem c4_quantizer (in_ : ℕ → ℕ → ℚ × ℚ) (means stdevs : ℕ → ℚ) (o : ℕ)
    (mean stdev : ℚ) (h : 0 < stdev) :
    detectScaleOut in_ means stdevs o =
        clampByte ⌈(detectOut in_ o - means (o % 256)) / stdevs (o % 256) * 32 + 128⌉ ∧
      quantize mean mean stdev = 128 ∧
      quantize (mean + 4 * stdev) mean stdev = 255 ∧
      quantize (mean - 4 * stdev) mean stdev = 0 := by
  have hne : stdev ≠ 0 := ne_of_gt h
  refine ⟨rfl, ?_, ?_, ?_⟩
  · unfold quantize
    have : (mean - mean) / stdev * 32 + 128 = (128 : ℚ) := by
      field_simp
    rw [this]
    norm_num [clampByte]
  · unfold quantize
    have : (mean + 4 * stdev - mean) / stdev * 32 + 128 = (256 : ℚ) := by
      field_simp
      ring
    rw [this]
    norm_num [clampByte]
  · unfold quantize
    have : (mean - 4 * stdev - mean) / stdev * 32 + 128 = (0 : ℚ) := by
      field_simp
      ring
    rw [this]
    norm_num [clampByte]

/-- C4 witness: the quantizer theorem applied at `mean = 0`, `stdev = 1`,
output index 0, zero spectra and zero statistics. -/
theorem c4_quantizer_witness :
    (0 : ℚ) < 1 ∧
      (detectScaleOut (fun _ _ => ((0 : ℚ), (0 : ℚ))) (fun _ => 0) (fun _ => 0) 0 =
          clampByte ⌈(detectOut (fun _ _ => ((0 : ℚ), (0 : ℚ))) 0 - (fun _ : ℕ => (0 : ℚ)) (0 % 256)) /
              (fun _ : ℕ => (0 : ℚ)) (0 % 256) * 32 + 128⌉ ∧
        quantize 0 0 1 = 128 ∧
        quantize (0 + 4 * 1) 0 1 = 255 ∧
        quantize (0 - 4 * 1) 0 1 = 0) :=
  ⟨by norm_num,
    c4_quantizer (fun _ _ => ((0 : ℚ), (0 : ℚ))) (fun _ => 0) (fun _ => 0) 0 0 1 (by norm_num)⟩

/-! ## IEEE-style extended values for the unguarded division (C9)

Line 141 divides by `stdevs[...]` with no zero guard.  In the running
code a zero divisor produces an IEEE infinity (or NaN when the numerator
is also zero); `__float2int_ru` maps NaN to 0, +inf to 2147483647 and
-inf to -2147483648 (CUDA conversion semantics).  The extended-value type
below models exactly that; finite values carry exact rationals. -/

inductive EFloat : Type
  | fin : ℚ → EFloat
  | pinf : EFloat
  | ninf : EFloat
  | nan : EFloat
deriving DecidableEq

/-- IEEE subtraction on extended values (only the cases float subtraction
produces; like-signed infinities cancel to NaN). -/
def EFloat.sub : EFloat → EFloat → EFloat
  | EFloat.fin x, EFloat.fin y => EFloat.fin (x - y)
  | EFloat.fin _, EFloat.pinf => EFloat.ninf
  | EFloat.fin _, EFloat.ninf => EFloat.pinf
  | EFloat.pinf, EFloat.fin _ => EFloat.pinf
  | EFloat.ninf, EFloat.fin _ => EFloat.ninf
  | EFloat.pinf, EFloat.ninf => EFloat.pinf
  | EFloat.ninf, EFloat.pinf => EFloat.ninf
  | _, _ => EFloat.nan

/-- IEEE division on extended values: a nonzero finite value divided by
zero gives a signed infinity, zero by zero gives NaN. -/
def EFloat.div : EFloat → EFloat → EFloat
  | EFloat.fin x, EFloat.fin y =>
      if y = 0 then
        if x = 0 then EFloat.nan else if 0 < x then EFloat.pinf else EFloat.ninf
      else EFloat.fin (x / y)
  | EFloat.fin _, EFloat.pinf => EFloat.fin 0
  | EFloat.fin _, EFloat.ninf => EFloat.fin 0
  | EFloat.pinf, EFloat.fin y => if 0 ≤ y then EFloat.pinf else EFloat.ninf
  | EFloat.ninf, EFloat.fin y => if 0 ≤ y then EFloat.ninf else EFloat.pinf
  | _, _ => EFloat.nan

/-- IEEE multiplication on extended values (infinity times zero is NaN). -/
def EFloat.mul : EFloat → EFloat → EFloat
  | EFloat.fin x, EFloat.fin y => EFloat.fin (x * y)
  | EFloat.fin x, EFloat.pinf =>
      if x = 0 then EFloat.nan else if 0 < x then EFloat.pinf else EFloat.ninf
  | EFloat.fin x, EFloat.ninf =>
      if x = 0 then EFloat.nan else if 0 < x then EFloat.ninf else EFloat.pinf
  | EFloat.pinf, EFloat.fin y =>
      if y = 0 then EFloat.nan else if 0 < y then EFloat.pinf else EFloat.ninf
  | EFloat.ninf, EFloat.fin y =>
      if y = 0 then EFloat.nan else if 0 < y then EFloat.ninf else EFloat.pinf
  | EFloat.pinf, EFloat.pinf => EFloat.pinf
  | EFloat.pinf, EFloat.ninf => EFloat.ninf
  | EFloat.ninf, EFloat.pinf => EFloat.ninf
  | EFloat.ninf, EFloat.ninf => EFloat.pinf
  | _, _ => EFloat.nan

/-- IEEE addition on extended values (opposite infinities give NaN). -/
def EFloat.add : EFloat → EFloat → EFloat
  | EFloat.fin x, EFloat.fin y => EFloat.fin (x + y)
  | EFloat.fin _, EFloat.pinf => EFloat.pinf
  | EFloat.fin _, EFloat.ninf => EFloat.ninf
  | EFloat.pinf, EFloat.fin _ => EFloat.pinf
  | EFloat.ninf, EFloat.fin _ => EFloat.ninf
  | EFloat.pinf, EFloat.pinf => EFloat.pinf
  | EFloat.ninf, EFloat.ninf => EFloat.ninf
  | _, _ => EFloat.nan

/-- CUDA `__float2int_ru`: ceiling on finite values, saturating on the
infinities, 0 on NaN. -/
def float2intRu : EFloat → ℤ
  | EFloat.fin x => ⌈x⌉
  | EFloat.pinf => 2147483647
  | EFloat.ninf => -2147483648
  | EFloat.nan => 0

/-- DetectScaleKernel line 141 plus the clamp, on extended values:
`clamp(__float2int_ru((p - mean) / stdev * 32.0f + 128.0f))`. -/
def quantizeE (p mean stdev : EFloat) : ℤ :=
  clampByte (float2intRu ((((p.sub mean).div stdev).mul (EFloat.fin 32)).add (EFloat.fin 128)))

/-- C9: the quantizer divides by `stdev[channel]` with no zero guard.
With a zero divisor the stored code is never the midpoint 128: it is 0
when `p = mean` (0/0 is NaN and `__float2int_ru(NaN) = 0`) and otherwise
saturates to 0 or 255 through a signed infinity.  With any nonzero
divisor the stored byte is well defined and equals the exact
ceiling-quantization formula. -/
theorem c9_division_no_guard (p mean : ℚ) :
    quantizeE (EFloat.fin p) (EFloat.fin mean) (EFloat.fin 0) ≠ 128 ∧
      (quantizeE (EFloat.fin p) (EFloat.fin mean) (EFloat.fin 0) = 0 ∨
        quantizeE (EFloat.fin p) (EFloat.fin mean) (EFloat.fin 0) = 255) ∧
      (p = mean → quantizeE (EFloat.fin p) (EFloat.fin mean) (EFloat.fin 0) = 0) ∧
      (∀ stdev : ℚ, stdev ≠ 0 →
        quantizeE (EFloat.fin p) (EFloat.fin mean) (EFloat.fin stdev) = quantize p mean stdev) := by
  have hmain : quantizeE (EFloat.fin p) (EFloat.fin mean) (EFloat.fin 0) = 0 ∨
      quantizeE (EFloat.fin p) (EFloat.fin mean) (EFloat.fin 0) = 255 := by
    unfold quantizeE
    rcases lt_trichotomy (p - mean) 0 with hlt | heq | hgt
    · left
      simp only [EFloat.sub, EFloat.div, if_pos rfl, if_neg (ne_of_lt hlt), if_neg (not_lt.mpr (le_of_lt hlt))]
      simp [EFloat.mul, EFloat.add, float2intRu, clampByte]
    · left
      simp only [EFloat.sub, EFloat.div, if_pos rfl, if_pos heq]
      simp [EFloat.mul, EFloat.add, float2intRu, clampByte]
    · right
      simp only [EFloat.sub, EFloat.div, if_pos rfl, if_neg (ne_of_gt hgt), if_pos hgt]
      simp [EFloat.mul, EFloat.add, float2intRu, clampByte]
  refine ⟨?_, hmain, ?_, ?_⟩
  · rcases hmain with h | h <;> rw [h] <;> norm_num
  · intro hpm
    unfold quantizeE
    simp only [EFloat.sub, EFloat.div, hpm, sub_self, if_pos rfl]
    simp [EFloat.mul, EFloat.add, float2intRu, clampByte]
  · intro stdev hs
    unfold quantizeE quantize
    simp only [EFloat.sub, EFloat.div, if_neg hs, EFloat.mul, EFloat.add, float2intRu]

/-- C9 witness: the no-guard theorem applied at `p = 1`, `mean = 0`: with
`stdev = 0` the stored code is 255 (not 128), and with `stdev = 1` it
agrees with the exact quantizer. -/
theorem c9_division_no_guard_witness :
    quantizeE (EFloat.fin 1) (EFloat.fin 0) (EFloat.fin 0) ≠ 128 ∧ (1 : ℚ) ≠ 0 ∧
      quantizeE (EFloat.fin 1) (EFloat.fin 0) (EFloat.fin 1) = quantize 1 0 1 :=
  ⟨(c9_division_no_guard 1 0).1, by norm_num,
    (c9_division_no_guard 1 0).2.2.2 1 (by norm_num)⟩

/-! ## GetScalingFactorsKernel (vdifil.cu lines 168-194) and Phase 1
(lines 411-454)

The kernel is launched as `<<<1, FFTUSE>>>` once per calibration
accumulation with `processed = 0, 15625, 31250, 46875, 62500`.  Thread
`ch` restores `estd = stdev[ch]^2 * (processed - 1.0f)` and
`oldmean = base[ch]`, folds Welford's update over the accumulation's
15625 output time steps using the reciprocal table
`factors[processed + isamp + 1]` (built by `thrust::sequence` composed
with `FactorFunctor`: index 0 maps to itself, every other index to its
reciprocal), then stores `base[ch] = mean` and
`stdev[ch] = sqrtf(estd / (processed + 15625 - 1.0f))`.  This cluster is
modelled over ℝ because of the square root. -/

/-- The reciprocal table: `FactorFunctor` applied to `0, 1, 2, ...`
(vdifil.cu lines 55-59 and 413-417). -/
noncomputable def factors (n : ℕ) : ℝ := if n = 0 then (n : ℝ) else 1 / (n : ℝ)

/-- One Welford update (vdifil.cu lines 185-189):
`diff = val - oldmean; mean = oldmean + diff * recip;
estd += diff * (val - mean)`, on a state (mean, estd). -/
def welfordStep (st : ℝ × ℝ) (recip : ℝ) (val : ℝ) : ℝ × ℝ :=
  (st.1 + (val - st.1) * recip,
    st.2 + (val - st.1) * (val - (st.1 + (val - st.1) * recip)))

/-- The per-channel loop of GetScalingFactorsKernel, folding `k` steps:
step `isamp` reads `indata[isamp * FFTUSE + ch]` and uses
`factors[processed + isamp + 1]`. -/
noncomputable def scalingLoop (indata : ℕ → ℝ) (ch processed : ℕ) (st : ℝ × ℝ) : ℕ → ℝ × ℝ
  | 0 => st
  | k + 1 =>
      welfordStep (scalingLoop indata ch processed st k) (factors (processed + k + 1))
        (indata (k * 256 + ch))

/-- GetScalingFactorsKernel: per channel, restore the running state from
`(base, stdev, processed)`, fold the 15625 samples of one accumulation,
and store the new mean and `sqrtf(estd / (processed + 15625 - 1.0f))`. -/
noncomputable def GetScalingFactorsKernel (indata base stdev : ℕ → ℝ) (processed : ℕ) :
    (ℕ → ℝ) × (ℕ → ℝ) :=
  (fun ch =>
    (scalingLoop indata ch processed
      (base ch, stdev ch * stdev ch * ((processed : ℝ) - 1)) 15625).1,
   fun ch =>
    Real.sqrt ((scalingLoop indata ch processed
      (base ch, stdev ch * stdev ch * ((processed : ℝ) - 1)) 15625).2 /
        ((processed : ℝ) + 15625 - 1)))

/-- The calibration loop of main (vdifil.cu lines 434-454) viewed through
its statistics updates: starting from zero-filled `dmeans`/`dstdevs`
(lines 401-402), call `a` runs GetScalingFactorsKernel on the power block
of accumulation `a` with `processed = 15625 * a`. -/
noncomputable def phase1Calls (powers : ℕ → ℕ → ℝ) : ℕ → (ℕ → ℝ) × (ℕ → ℝ)
  | 0 => (fun _ => 0, fun _ => 0)
  | a + 1 =>
      GetScalingFactorsKernel (powers a) (phase1Calls powers a).1 (phase1Calls powers a).2
        (15625 * a)

/-- The statistics after the whole 5-accumulation calibration window. -/
noncomputable def phase1 (powers : ℕ → ℕ → ℝ) : (ℕ → ℝ) × (ℕ → ℝ) :=
  phase1Calls powers 5

/-- The single-pass reference: Welford's online algorithm over one stream
of values with the 1-indexed sample count `n = k + 1`, exactly as the
specification states the update rule. -/
noncomputable def welfordRef (vals : ℕ → ℝ) : ℕ → ℝ × ℝ
  | 0 => (0, 0)
  | k + 1 => welfordStep (welfordRef vals k) (1 / ((k : ℝ) + 1)) (vals k)

/-- The calibration window of one channel as a single concatenated stream:
global time step `i` lives in accumulation `i / 15625`, local step
`i % 15625`, at array offset `(i % 15625) * FFTUSE + ch`. -/
def chSamples (powers : ℕ → ℕ → ℝ) (ch : ℕ) (i : ℕ) : ℝ :=
  powers (i / 15625) (i % 15625 * 256 + ch)

/-- The Welford variance accumulator never becomes negative. -/
theorem welfordRef_estd_nonneg (vals : ℕ → ℝ) : ∀ k, 0 ≤ (welfordRef vals k).2 := by
  intro k
  induction k with
  | zero => simp [welfordRef]
  | succ k ih =>
      have h1 : (0 : ℝ) < (k : ℝ) + 1 := by positivity
      show 0 ≤ (welfordStep (welfordRef vals k) (1 / ((k : ℝ) + 1)) (vals k)).2
      unfold welfordStep
      have hrw : vals k - ((welfordRef vals k).1 +
          (vals k - (welfordRef vals k).1) * (1 / ((k : ℝ) + 1))) =
          (vals k - (welfordRef vals k).1) * (1 - 1 / ((k : ℝ) + 1)) := by
        ring
      simp only [hrw]
      have hfac : 0 ≤ 1 - 1 / ((k : ℝ) + 1) := by
        rw [sub_nonneg, div_le_one h1]
        linarith
      have hsq : (vals k - (welfordRef vals k).1) *
          ((vals k - (welfordRef vals k).1) * (1 - 1 / ((k : ℝ) + 1))) =
          (vals k - (welfordRef vals k).1) ^ 2 * (1 - 1 / ((k : ℝ) + 1)) := by
        ring
      rw [hsq]
      have : 0 ≤ (vals k - (welfordRef vals k).1) ^ 2 * (1 - 1 / ((k : ℝ) + 1)) := by
        positivity
      linarith

/-- Continuing the reference fold from sample `m` with the running
1-indexed counts. -/
noncomputable def welfordFrom (vals : ℕ → ℝ) (st : ℝ × ℝ) (m : ℕ) : ℕ → ℝ × ℝ
  | 0 => st
  | k + 1 => welfordStep (welfordFrom vals st m k) (1 / ((m : ℝ) + (k : ℝ) + 1)) (vals (m + k))

/-- Continuing the reference fold from its own state is the reference
fold. -/
theorem welfordFrom_ref (vals : ℕ → ℝ) (m : ℕ) :
    ∀ k, welfordFrom vals (welfordRef vals m) m k = welfordRef vals (m + k) := by
  intro k
  induction k with
  | zero => simp [welfordFrom]
  | succ k ih =>
      show welfordStep (welfordFrom vals (welfordRef vals m) m k)
          (1 / ((m : ℝ) + (k : ℝ) + 1)) (vals (m + k)) = welfordRef vals (m + k + 1)
      rw [ih]
      show _ = welfordStep (welfordRef vals (m + k)) (1 / (((m + k : ℕ) : ℝ) + 1)) (vals (m + k))
      have : ((m + k : ℕ) : ℝ) + 1 = (m : ℝ) + (k : ℝ) + 1 := by
        push_cast
        ring
      rw [this]

/-- The kernel's loop over accumulation `a` is the continued reference
fold over the concatenated channel stream. -/
theorem scalingLoop_eq_welfordFrom (powers : ℕ → ℕ → ℝ) (ch a : ℕ) (st : ℝ × ℝ) :
    ∀ k, k ≤ 15625 →
      scalingLoop (powers a) ch (15625 * a) st k =
        welfordFrom (chSamples powers ch) st (15625 * a) k := by
  intro k
  induction k with
  | zero => intro _; rfl
  | succ k ih =>
      intro hk
      have hk' : k ≤ 15625 := Nat.le_of_succ_le hk
      show welfordStep (scalingLoop (powers a) ch (15625 * a) st k)
          (factors (15625 * a + k + 1)) (powers a (k * 256 + ch)) = _
      rw [ih hk']
      show _ = welfordStep (welfordFrom (chSamples powers ch) st (15625 * a) k)
          (1 / (((15625 * a : ℕ) : ℝ) + (k : ℝ) + 1)) (chSamples powers ch (15625 * a + k))
      have hval : chSamples powers ch (15625 * a + k) = powers a (k * 256 + ch) := by
        unfold chSamples
        have h1 : (15625 * a + k) / 15625 = a := by omega
        have h2 : (15625 * a + k) % 15625 = k := by omega
        rw [h1, h2]
      have hfac : factors (15625 * a + k + 1) =
          1 / (((15625 * a : ℕ) : ℝ) + (k : ℝ) + 1) := by
        unfold factors
        rw [if_neg (by omega)]
        push_cast
        ring_nf
      rw [hval, hfac]

/-- One kernel call advances the phase-1 state from the reference state at
`15625 * a` samples to the reference state at `15625 * (a + 1)`. -/
theorem kernel_call_spec (powers : ℕ → ℕ → ℝ) (base stdev : ℕ → ℝ) (a ch : ℕ)
    (h1 : base ch = (welfordRef (chSamples powers ch) (15625 * a)).1)
    (h2 : stdev ch * stdev ch * (((15625 * a : ℕ) : ℝ) - 1) =
      (welfordRef (chSamples powers ch) (15625 * a)).2) :
    (GetScalingFactorsKernel (powers a) base stdev (15625 * a)).1 ch =
        (welfordRef (chSamples powers ch) (15625 * (a + 1))).1 ∧
      (GetScalingFactorsKernel (powers a) base stdev (15625 * a)).2 ch =
        Real.sqrt ((welfordRef (chSamples powers ch) (15625 * (a + 1))).2 /
          (((15625 * (a + 1) : ℕ) : ℝ) - 1)) := by
  have hst : (base ch, stdev ch * stdev ch * (((15625 * a : ℕ) : ℝ) - 1)) =
      welfordRef (chSamples powers ch) (15625 * a) := by
    rw [Prod.ext_iff]
    exact ⟨h1, h2⟩
  have hloop : scalingLoop (powers a) ch (15625 * a)
      (base ch, stdev ch * stdev ch * (((15625 * a : ℕ) : ℝ) - 1)) 15625 =
      welfordRef (chSamples powers ch) (15625 * (a + 1)) := by
    rw [scalingLoop_eq_welfordFrom powers ch a _ 15625 (le_refl _), hst,
      welfordFrom_ref]
    have : 15625 * a + 15625 = 15625 * (a + 1) := by ring
    rw [this]
  constructor
  · show (scalingLoop (powers a) ch (15625 * a)
        (base ch, stdev ch * stdev ch * (((15625 * a : ℕ) : ℝ) - 1)) 15625).1 = _
    rw [hloop]
  · show Real.sqrt ((scalingLoop (powers a) ch (15625 * a)
        (base ch, stdev ch * stdev ch * (((15625 * a : ℕ) : ℝ) - 1)) 15625).2 /
          (((15625 * a : ℕ) : ℝ) + 15625 - 1)) = _
    rw [hloop]
    have : (((15625 * a : ℕ) : ℝ) + 15625 - 1) = (((15625 * (a + 1) : ℕ) : ℝ) - 1) := by
      push_cast
      ring
    rw [this]

/-- Invariant of the calibration loop: after `a` kernel calls the stored
mean is the reference mean over the first `15625 * a` samples, and the
stored standard deviation squares back to the reference variance
accumulator. -/
theorem phase1Calls_invariant (powers : ℕ → ℕ → ℝ) (ch : ℕ) :
    ∀ a, (phase1Calls powers a).1 ch = (welfordRef (chSamples powers ch) (15625 * a)).1 ∧
      (phase1Calls powers a).2 ch * (phase1Calls powers a).2 ch *
          (((15625 * a : ℕ) : ℝ) - 1) =
        (welfordRef (chSamples powers ch) (15625 * a)).2 := by
  intro a
  induction a with
  | zero =>
      constructor
      · simp [phase1Calls, welfordRef]
      · simp [phase1Calls, welfordRef]
  | succ a ih =>
      have hcall := kernel_call_spec powers (phase1Calls powers a).1 (phase1Calls powers a).2
        a ch ih.1 ih.2
      constructor
      · exact hcall.1
      · show (phase1Calls powers (a + 1)).2 ch * (phase1Calls powers (a + 1)).2 ch *
            (((15625 * (a + 1) : ℕ) : ℝ) - 1) = _
        have hsd : (phase1Calls powers (a + 1)).2 ch =
            Real.sqrt ((welfordRef (chSamples powers ch) (15625 * (a + 1))).2 /
              (((15625 * (a + 1) : ℕ) : ℝ) - 1)) := hcall.2
        rw [hsd]
        have hden : (0 : ℝ) < ((15625 * (a + 1) : ℕ) : ℝ) - 1 := by
          push_cast
          have : (0 : ℝ) ≤ 15625 * (a : ℝ) := by positivity
          linarith
        have hnn : 0 ≤ (welfordRef (chSamples powers ch) (15625 * (a + 1))).2 /
            (((15625 * (a + 1) : ℕ) : ℝ) - 1) :=
          div_nonneg (welfordRef_estd_nonneg _ _) (le_of_lt hden)
        rw [Real.mul_self_sqrt hnn]
        exact div_mul_cancel₀ _ (ne_of_gt hden)

/-- C5: during Phase 1 the Statistics Estimator is exactly Welford's
online algorithm run once over the whole 5-accumulation calibration
window: after the 5 kernel calls (with `processed = 15625 * a`), for every
channel the stored mean is the single-pass Welford mean of the 78125
raw power time steps (with the 1-indexed running count `n` carried across
accumulation boundaries, never reset), and the stored standard deviation
is `sqrt(variance_accum / (n - 1))` with `n = 78125` - the
Bessel-corrected sample standard deviation. -/
theorem c5_welford_statistics (powers : ℕ → ℕ → ℝ) (ch : ℕ) :
    (phase1 powers).1 ch = (welfordRef (chSamples powers ch) 78125).1 ∧
      (phase1 powers).2 ch =
        Real.sqrt ((welfordRef (chSamples powers ch) 78125).2 / 78124) := by
  have inv := phase1Calls_invariant powers ch 4
  have hcall := kernel_call_spec powers (phase1Calls powers 4).1 (phase1Calls powers 4).2
    4 ch inv.1 inv.2
  constructor
  · show (GetScalingFactorsKernel (powers 4) (phase1Calls powers 4).1
        (phase1Calls powers 4).2 (15625 * 4)).1 ch = _
    have := hcall.1
    rw [show (15625 : ℕ) * (4 + 1) = 78125 by norm_num] at this
    exact this
  · show (GetScalingFactorsKernel (powers 4) (phase1Calls powers 4).1
        (phase1Calls powers 4).2 (15625 * 4)).2 ch = _
    have := hcall.2
    rw [show (15625 : ℕ) * (4 + 1) = 78125 by norm_num] at this
    rw [this]
    norm_num

/-! ## Host-side read loops (vdifil.cu lines 434-454 and 495-605)

Both phases iterate the same body over two input streams: per
accumulation, 4000 frames of a 32-byte header read followed by an
8000-byte payload read from each file.  A C++ `ifstream` read past the
end sets the fail bit, after which every later read is a no-op and
`tellg()` returns -1.  Phase 1 (calibration) loops while
`tellg() < 5 * NACCUMULATE * 8032` on both files; Phase 2 loops while
`tellg() < filelength - NACCUMULATE * 8000` on both files (note: 8000,
the payload size alone, not the framed size 8032). -/

/-- Model of an input ifstream: get position, total file length, and
whether the stream is still good (no fail bit). -/
structure FStream where
  pos : ℕ
  len : ℕ
  ok : Bool
deriving DecidableEq

/-- Reading `n` bytes with `istream::read`: succeeds (advancing the position) only
when the stream is good and `n` bytes remain; otherwise the fail bit is
set and the position no longer advances. -/
def readBytes (s : FStream) (n : ℕ) : FStream :=
  if s.ok = true ∧ s.pos + n ≤ s.len then ⟨s.pos + n, s.len, true⟩ else ⟨s.pos, s.len, false⟩

/-- The `tellg()` call: the position, or -1 once the stream has failed. -/
def tellg (s : FStream) : ℤ := if s.ok = true then (s.pos : ℤ) else -1

/-- One frame read: 32 header bytes then 8000 payload bytes. -/
def readFrame (s : FStream) : FStream := readBytes (readBytes s 32) 8000

/-- One loop-body's worth of reads from one stream: NACCUMULATE frames. -/
def readAcc (s : FStream) : FStream := readFrame^[4000] s

/-- One loop-body step of either phase on the pair of input streams (the
two files are read in an interleaved order, but each stream only sees its
own reads). -/
def accStep (p : FStream × FStream) : FStream × FStream := (readAcc p.1, readAcc p.2)

/-- Both files start at position 0 when each phase's loop begins. -/
def initStreams (la lb : ℕ) : FStream × FStream := (⟨0, la, true⟩, ⟨0, lb, true⟩)

/-- Phase 1 loop condition (vdifil.cu line 434):
`tellg() < 5 * NACCUMULATE * 8032` on both files. -/
def phase1Cond (p : FStream × FStream) : Prop :=
  tellg p.1 < 5 * 4000 * 8032 ∧ tellg p.2 < 5 * 4000 * 8032

/-- Phase 2 loop condition (vdifil.cu line 495):
`tellg() < filelength - NACCUMULATE * 8000` on both files. -/
def phase2Cond (p : FStream × FStream) : Prop :=
  tellg p.1 < (p.1.len : ℤ) - 4000 * 8000 ∧ tellg p.2 < (p.2.len : ℤ) - 4000 * 8000

/-- A failed stream is stuck. -/
theorem readBytes_notok (p l n : ℕ) : readBytes ⟨p, l, false⟩ n = ⟨p, l, false⟩ := by
  unfold readBytes
  rw [if_neg]
  rintro ⟨hc, -⟩
  exact Bool.false_ne_true hc

/-- On a good stream `readBytes` advances on fit and fails otherwise. -/
theorem readBytes_mk_true (p l n : ℕ) :
    readBytes ⟨p, l, true⟩ n =
      if p + n ≤ l then ⟨p + n, l, true⟩ else ⟨p, l, false⟩ := by
  unfold readBytes
  by_cases h : p + n ≤ l
  · rw [if_pos ⟨rfl, h⟩, if_pos h]
  · rw [if_neg ?_, if_neg h]
    rintro ⟨-, hc⟩
    exact h hc

/-- A frame read on a failed stream is the identity. -/
theorem readFrame_mk_false (p l : ℕ) : readFrame ⟨p, l, false⟩ = ⟨p, l, false⟩ := by
  unfold readFrame
  rw [readBytes_notok, readBytes_notok]

/-- Full case analysis of one frame read on a good stream. -/
theorem readFrame_mk_true (p l : ℕ) :
    readFrame ⟨p, l, true⟩ =
      if p + 8032 ≤ l then ⟨p + 8032, l, true⟩
      else if p + 32 ≤ l then ⟨p + 32, l, false⟩ else ⟨p, l, false⟩ := by
  unfold readFrame
  rw [readBytes_mk_true]
  by_cases h32 : p + 32 ≤ l
  · rw [if_pos h32, readBytes_mk_true]
    by_cases h80 : p + 8032 ≤ l
    · rw [if_pos (by omega : p + 32 + 8000 ≤ l), if_pos h80]
    · rw [if_neg (by omega : ¬ p + 32 + 8000 ≤ l), if_neg h80, if_pos h32]
  · rw [if_neg h32, readBytes_notok, if_neg (by omega : ¬ p + 8032 ≤ l), if_neg h32]

/-- A successful frame read advances by 8032 bytes. -/
theorem readFrame_succ (p l : ℕ) (h : p + 8032 ≤ l) :
    readFrame ⟨p, l, true⟩ = ⟨p + 8032, l, true⟩ := by
  rw [readFrame_mk_true, if_pos h]

/-- A frame read that leaves the stream good started from a good stream
and was a full 8032-byte advance. -/
theorem readFrame_ok_char (s : FStream) (h : (readFrame s).ok = true) :
    s.ok = true ∧ s.pos + 8032 ≤ s.len ∧ readFrame s = ⟨s.pos + 8032, s.len, true⟩ := by
  rcases s with ⟨p, l, ok⟩
  cases ok with
  | false =>
      rw [readFrame_mk_false] at h
      exact absurd h (by simp)
  | true =>
      by_cases hfit : p + 8032 ≤ l
      · exact ⟨rfl, hfit, readFrame_succ p l hfit⟩
      · exfalso
        rw [readFrame_mk_true, if_neg hfit] at h
        by_cases h32 : p + 32 ≤ l
        · rw [if_pos h32] at h
          exact absurd h (by simp)
        · rw [if_neg h32] at h
          exact absurd h (by simp)

/-- Any `k` frame reads that keep the stream good advance by exactly
`8032 * k` bytes (and the file had room for them, unless `k = 0`). -/
theorem readFrame_iter_ok (k : ℕ) :
    ∀ s : FStream, (readFrame^[k] s).ok = true →
      s.ok = true ∧ readFrame^[k] s = ⟨s.pos + 8032 * k, s.len, true⟩ ∧
        (k = 0 ∨ s.pos + 8032 * k ≤ s.len) := by
  induction k with
  | zero =>
      intro s h
      rw [Function.iterate_zero_apply] at h ⊢
      refine ⟨h, ?_, Or.inl rfl⟩
      rcases s with ⟨p, l, ok⟩
      cases ok with
      | false => exact absurd h (by simp)
      | true => norm_num
  | succ k ih =>
      intro s h
      rw [Function.iterate_succ_apply] at h ⊢
      obtain ⟨hfok, hchar, hbound⟩ := ih (readFrame s) h
      obtain ⟨hok, hfit, heq⟩ := readFrame_ok_char s hfok
      rw [heq] at hchar hbound
      refine ⟨hok, ?_, Or.inr ?_⟩
      · rw [heq, hchar]
        congr 1
        ring
      · rcases hbound with h0 | hle
        · omega
        · simp only at hle
          omega

/-- Any `k` frame reads that all fit advance by exactly `8032 * k` bytes. -/
theorem readFrame_iter_fits (k : ℕ) :
    ∀ p l : ℕ, p + 8032 * k ≤ l → readFrame^[k] ⟨p, l, true⟩ = ⟨p + 8032 * k, l, true⟩ := by
  induction k with
  | zero =>
      intro p l _
      simp
  | succ k ih =>
      intro p l hfit
      rw [Function.iterate_succ_apply, readFrame_succ p l (by omega)]
      rw [ih (p + 8032) l (by omega)]
      congr 1
      ring

/-- Iterates of `readAcc` are frame-read iterates. -/
theorem readAcc_eq : readAcc = readFrame^[4000] :=
  funext fun _ => rfl

/-- Any `j` whole-accumulation reads from the start of a file that is long
enough land at `32128000 * j` with the stream still good. -/
theorem readAcc_iter_fits (j l : ℕ) (h : 32128000 * j ≤ l) :
    readAcc^[j] ⟨0, l, true⟩ = ⟨32128000 * j, l, true⟩ := by
  rw [readAcc_eq, ← Function.iterate_mul]
  have heq := readFrame_iter_fits (4000 * j) 0 l (by omega)
  rw [heq]
  congr 1
  omega

/-- If `j` whole-accumulation reads from the start leave the stream good,
the file held them all and the position is `32128000 * j`. -/
theorem readAcc_iter_ok (j l : ℕ) (h : (readAcc^[j] ⟨0, l, true⟩).ok = true) :
    readAcc^[j] ⟨0, l, true⟩ = ⟨32128000 * j, l, true⟩ ∧ 32128000 * j ≤ l := by
  rw [readAcc_eq, ← Function.iterate_mul] at h ⊢
  obtain ⟨-, hchar, hbound⟩ := readFrame_iter_ok (4000 * j) ⟨0, l, true⟩ h
  simp only at hchar hbound
  constructor
  · rw [hchar]
    congr 1
    omega
  · omega

/-- The stream pair after `j` loop iterations is the componentwise
iterate. -/
theorem accStep_iter (j : ℕ) (sa sb : FStream) :
    accStep^[j] (sa, sb) = (readAcc^[j] sa, readAcc^[j] sb) := by
  induction j with
  | zero => simp
  | succ j ih =>
      rw [Function.iterate_succ_apply', Function.iterate_succ_apply',
        Function.iterate_succ_apply', ih]
      rfl

/-- The stream pair after `j` loop iterations from the loop entry. -/
theorem accStep_iter_init (j la lb : ℕ) :
    accStep^[j] (initStreams la lb) =
      (readAcc^[j] ⟨0, la, true⟩, readAcc^[j] ⟨0, lb, true⟩) :=
  accStep_iter j ⟨0, la, true⟩ ⟨0, lb, true⟩

/-- On a good stream `tellg` is the position. -/
theorem tellg_mk_true (p l : ℕ) : tellg ⟨p, l, true⟩ = (p : ℤ) := by
  unfold tellg
  rw [if_pos rfl]

/-- On a failed stream `tellg` is -1. -/
theorem tellg_mk_false (p l : ℕ) : tellg ⟨p, l, false⟩ = -1 := by
  unfold tellg
  rw [if_neg]
  exact Bool.false_ne_true

/-- The Phase 1 condition on an explicit pair. -/
theorem phase1Cond_pair (sa sb : FStream) :
    phase1Cond (sa, sb) ↔ (tellg sa < 160640000 ∧ tellg sb < 160640000) := by
  unfold phase1Cond
  norm_num

/-- The Phase 2 condition on an explicit pair. -/
theorem phase2Cond_pair (sa sb : FStream) :
    phase2Cond (sa, sb) ↔
      (tellg sa < (sa.len : ℤ) - 32000000 ∧ tellg sb < (sb.len : ℤ) - 32000000) := by
  unfold phase2Cond
  norm_num

/-- After any number of accumulation reads, `tellg` stays strictly below
the calibration bound whenever the file is shorter than it. -/
theorem tellg_lt_of_short (l j : ℕ) (h : l < 160640000) :
    tellg (readAcc^[j] ⟨0, l, true⟩) < 160640000 := by
  cases hok : (readAcc^[j] (⟨0, l, true⟩ : FStream)).ok with
  | false =>
      rcases hstate : readAcc^[j] (⟨0, l, true⟩ : FStream) with ⟨p', l', ok'⟩
      rw [hstate] at hok
      simp only at hok
      rw [hok, tellg_mk_false]
      norm_num
  | true =>
      obtain ⟨heq, hle⟩ := readAcc_iter_ok j l hok
      rw [heq, tellg_mk_true]
      omega

/-- After at most four accumulation reads, `tellg` is strictly below the
calibration bound whatever the file length. -/
theorem tellg_lt_of_early (l j : ℕ) (hj : j ≤ 4) :
    tellg (readAcc^[j] ⟨0, l, true⟩) < 160640000 := by
  cases hok : (readAcc^[j] (⟨0, l, true⟩ : FStream)).ok with
  | false =>
      rcases hstate : readAcc^[j] (⟨0, l, true⟩ : FStream) with ⟨p', l', ok'⟩
      rw [hstate] at hok
      simp only at hok
      rw [hok, tellg_mk_false]
      norm_num
  | true =>
      obtain ⟨heq, -⟩ := readAcc_iter_ok j l hok
      rw [heq, tellg_mk_true]
      omega

/-- After the fifth accumulation read, `tellg` reaches the calibration
bound exactly when the file holds five full framed accumulations. -/
theorem tellg_five (l : ℕ) :
    (¬ tellg (readAcc^[5] ⟨0, l, true⟩) < 160640000) ↔ 160640000 ≤ l := by
  constructor
  · intro hnot
    cases hok : (readAcc^[5] (⟨0, l, true⟩ : FStream)).ok with
    | false =>
        exfalso
        apply hnot
        rcases hstate : readAcc^[5] (⟨0, l, true⟩ : FStream) with ⟨p', l', ok'⟩
        rw [hstate] at hok
        simp only at hok
        rw [hok, tellg_mk_false]
        norm_num
    | true =>
        obtain ⟨-, hle⟩ := readAcc_iter_ok 5 l hok
        omega
  · intro hlong
    rw [readAcc_iter_fits 5 l (by omega), tellg_mk_true]
    norm_num

/-- C10 (amended): the Phase 1 calibration loop condition holds for the
first five iterations whatever the input lengths; after the fifth body it
fails exactly when AT LEAST ONE input file holds 5 full framed
accumulations (5 * 4000 * 8032 = 160640000 bytes) - that file's position
reaches the bound, so the loop terminates after exactly 5 iterations;
and when BOTH files are shorter, the condition holds after every body
(each failed stream reports tellg = -1 forever), so the loop never
terminates. -/
theorem c10_phase1_termination (la lb : ℕ) :
    (∀ j, j < 5 → phase1Cond (accStep^[j] (initStreams la lb))) ∧
      (¬ phase1Cond (accStep^[5] (initStreams la lb)) ↔
        160640000 ≤ la ∨ 160640000 ≤ lb) ∧
      (la < 160640000 → lb < 160640000 →
        ∀ j, phase1Cond (accStep^[j] (initStreams la lb))) := by
  refine ⟨?_, ?_, ?_⟩
  · intro j hj
    rw [accStep_iter_init, phase1Cond_pair]
    exact ⟨tellg_lt_of_early la j (by omega), tellg_lt_of_early lb j (by omega)⟩
  · rw [accStep_iter_init, phase1Cond_pair]
    constructor
    · intro hnot
      rcases not_and_or.mp hnot with h | h
      · exact Or.inl ((tellg_five la).mp h)
      · exact Or.inr ((tellg_five lb).mp h)
    · rintro (h | h) hc
      · exact (tellg_five la).mpr h hc.1
      · exact (tellg_five lb).mpr h hc.2
  · intro hla hlb j
    rw [accStep_iter_init, phase1Cond_pair]
    exact ⟨tellg_lt_of_short la j hla, tellg_lt_of_short lb j hlb⟩

/-- C10 witness: the termination theorem applied with two 5-accumulation
files (condition holds at entry) and with two empty files (condition
still holds after 7 bodies: the loop spins). -/
theorem c10_phase1_termination_witness :
    ((0 : ℕ) < 5 ∧ phase1Cond (accStep^[0] (initStreams 160640000 160640000))) ∧
      ((0 : ℕ) < 160640000 ∧
        phase1Cond (accStep^[7] (initStreams 0 0))) :=
  ⟨⟨by norm_num, (c10_phase1_termination 160640000 160640000).1 0 (by norm_num)⟩,
    ⟨by norm_num,
      (c10_phase1_termination 0 0).2.2 (by norm_num) (by norm_num) 7⟩⟩

/-- C10 counterexample: with file A holding only one framed accumulation
(32128000 bytes, fewer than the five the claim requires of BOTH files)
and file B holding five, the Phase 1 loop condition is already false
after the fifth body: the loop terminates even though file A is short,
refuting the claimed "only if both" direction. -/
theorem c10_counterexample :
    (32128000 : ℕ) < 5 * 4000 * 8032 ∧
      ¬ phase1Cond (accStep^[5] (initStreams 32128000 160640000)) := by
  constructor
  · norm_num
  · rw [accStep_iter_init, phase1Cond_pair]
    intro hc
    exact (tellg_five 160640000).mpr (by norm_num) hc.2

/-- Power samples per accumulation (vdifil.cu line 321):
`unpackedsize / (2 * FFTUSE) * FFTUSE / TIMEAVG` with
`unpackedsize = NACCUMULATE * VDIFSIZE * UNPACKFACTOR`. -/
def powersize : ℕ := NACCUMULATE * VDIFSIZE * UNPACKFACTOR / (2 * FFTUSE) * FFTUSE / TIMEAVG

/-- Bytes of power samples appended to the output file after `iters`
Phase 2 iterations (vdifil.cu line 569 writes
`powersize * filhead.nbits / 8` bytes per iteration). -/
def phase2OutBytes (nbits iters : ℕ) : ℕ := iters * (powersize * nbits / 8)

/-- C1 (amended): Phase 2 processes an accumulation while both inputs
have strictly more than `NACCUMULATE * 8000 = 32000000` bytes (the
payload size alone, headers not counted) remaining before their end.  On
a pair of inputs of exactly `k` full framed accumulations
(`32128000 * k` bytes each) the loop condition holds for the first `k`
bodies and fails after the k-th: Phase 2 executes exactly `k`
iterations - in particular exactly ONE, not zero, for one-accumulation
inputs. -/
theorem c1_phase2_iterations (k : ℕ) :
    (∀ j, j < k →
      phase2Cond (accStep^[j] (initStreams (32128000 * k) (32128000 * k)))) ∧
      ¬ phase2Cond (accStep^[k] (initStreams (32128000 * k) (32128000 * k))) := by
  have hstate : ∀ j, j ≤ k →
      readAcc^[j] (⟨0, 32128000 * k, true⟩ : FStream) =
        ⟨32128000 * j, 32128000 * k, true⟩ := by
    intro j hj
    exact readAcc_iter_fits j (32128000 * k) (by omega)
  constructor
  · intro j hj
    rw [accStep_iter_init, hstate j (by omega), phase2Cond_pair, tellg_mk_true]
    constructor <;>
      · show (((32128000 * j : ℕ) : ℤ)) < ((32128000 * k : ℕ) : ℤ) - 32000000
        push_cast
        omega
  · rw [accStep_iter_init, hstate k (le_refl k), phase2Cond_pair, tellg_mk_true]
    intro hc
    have h1 : (((32128000 * k : ℕ) : ℤ)) < ((32128000 * k : ℕ) : ℤ) - 32000000 := hc.1
    omega

/-- C1 witness: the iteration-count theorem applied at `k = 1`: the
condition holds at entry, so the one-accumulation input is processed. -/
theorem c1_phase2_iterations_witness :
    (0 : ℕ) < 1 ∧
      phase2Cond (accStep^[0] (initStreams (32128000 * 1) (32128000 * 1))) :=
  ⟨by norm_num, (c1_phase2_iterations 1).1 0 (by norm_num)⟩

/-- C1 counterexample: a pair of inputs of exactly one framed
accumulation each (4000 * 8032 = 32128000 bytes, no trailing partial
block) PASSES the Phase 2 loop guard at entry (0 < 32128000 - 32000000),
so the loop body executes at least once and the appended power stream is
one full non-empty accumulation block (16000000 bytes at 32-bit, 4000000
at 8-bit) - not zero iterations and not empty as claimed. -/
theorem c1_counterexample :
    (32128000 : ℕ) = 4000 * 8032 ∧
      phase2Cond (initStreams 32128000 32128000) ∧
      phase2OutBytes 32 1 = 16000000 ∧ phase2OutBytes 8 1 = 4000000 := by
  refine ⟨by norm_num, ?_, by decide, by decide⟩
  show phase2Cond (⟨0, 32128000, true⟩, ⟨0, 32128000, true⟩)
  rw [phase2Cond_pair, tellg_mk_true]
  norm_num

/-! ## The unused "seconds to process" control (C8)

`main` parses `-r` into `readsec` (vdifil.cu lines 236-239) and never
reads the variable again: no later statement mentions it.  The model
carries the full parsed argument record and computes the Phase 2
observables from it; the projection used is everything `main` actually
consumes downstream of parsing. -/

structure Args where
  inpola : String
  inpolb : String
  outfil : String
  config : String
  scaling : Bool
  saveinter : Bool
  readsec : ℚ

/-- Output bit depth: forced to 8 when `-s` scaling is on (vdifil.cu
lines 247-249), otherwise whatever the configuration header holds. -/
def mainNbits (a : Args) (cfgNbits : ℕ) : ℕ := if a.scaling then 8 else cfgNbits

/-- The observable behavior of the Phase 2 loop for given inputs: the
stream-state trajectory (which fixes the loop condition at every step and
hence the iteration count), the selected bit depth (which selects
DetectScaleKernel vs DetectKernel), and the bytes appended per
iteration. -/
def mainRun (a : Args) (cfgNbits la lb : ℕ) : (ℕ → FStream × FStream) × ℕ × ℕ :=
  (fun j => accStep^[j] (initStreams la lb),
    mainNbits a cfgNbits,
    powersize * mainNbits a cfgNbits / 8)

/-- C8: two runs on identical inputs and configuration that differ only
in the `-r` "seconds to process" value have identical Phase 2 behavior:
the same loop-state trajectory (hence the same termination condition and
iteration count), the same bit-depth selection and the same output sizes.
`readsec` is parsed but never read again, so the full input is processed
regardless. -/
theorem c8_readsec_no_effect (a1 a2 : Args) (cfgNbits la lb : ℕ)
    (h1 : a1.inpola = a2.inpola) (h2 : a1.inpolb = a2.inpolb)
    (h3 : a1.outfil = a2.outfil) (h4 : a1.config = a2.config)
    (h5 : a1.scaling = a2.scaling) (h6 : a1.saveinter = a2.saveinter) :
    mainRun a1 cfgNbits la lb = mainRun a2 cfgNbits la lb := by
  unfold mainRun mainNbits
  rw [h5]

/-- C8 witness: two concrete argument records differing only in
`readsec` (1 second vs 2 seconds) produce equal Phase 2 observables. -/
theorem c8_readsec_no_effect_witness :
    (Args.mk "a.vdif" "b.vdif" "out.fil" "cfg" true false 1).inpola =
        (Args.mk "a.vdif" "b.vdif" "out.fil" "cfg" true false 2).inpola ∧
      mainRun (Args.mk "a.vdif" "b.vdif" "out.fil" "cfg" true false 1) 32 32128000 32128000 =
        mainRun (Args.mk "a.vdif" "b.vdif" "out.fil" "cfg" true false 2) 32 32128000 32128000 :=
  ⟨rfl, c8_readsec_no_effect _ _ 32 32128000 32128000 rfl rfl rfl rfl rfl rfl⟩

end Vdifil
